import Mathlib

/-!
Shallow embedding of `hexv` (`src/main.rs`): a byte stream is decoded as
UTF-8 (with `bstr`-style maximal-subpart substitution of invalid spans),
each decoded unit is classified by `Formatter::process_str`, and escaped
forms are produced by `Formatter::write_byte` / `Formatter::write_char`.
Output is modelled as the list of Unicode code points written to stdout.
-/

namespace Hexv

/-- The boolean flags of `Formatter` in `src/main.rs` (the stdout handle and
the font-name string are externalized; they carry no decision logic). -/
structure Formatter where
  as_bytes : Bool
  all_as_hex : Bool
  hex_as_decimal : Bool
  newline_escaped : Bool
  newline_as_hex : Bool
  carriage_return_as_hex : Bool
  tab_as_hex : Bool
  space_as_circle : Bool
  space_as_hex : Bool

/-- Code point of the lowercase hexadecimal digit for a value `n < 16`. -/
def hexDigitCp (n : Nat) : Nat := if n < 10 then 48 + n else 87 + n

/-- `Formatter::write_byte`: `\dNNN` (three zero-padded decimal digits) in
decimal mode, otherwise `\xhh` (two lowercase hex digits). -/
def write_byte (f : Formatter) (b : Nat) : List Nat :=
  if f.hex_as_decimal then
    [92, 100, 48 + b / 100 % 10, 48 + b / 10 % 10, 48 + b % 10]
  else
    [92, 120, hexDigitCp (b / 16 % 16), hexDigitCp (b % 16)]

/-- Escape each byte of a list in order with `write_byte` (the
`for byte in ...` loops of `process_str`, `write_char` and `main`). -/
def escBytes (f : Formatter) : List Nat → List Nat
  | [] => []
  | b :: bs => write_byte f b ++ escBytes f bs

/-- UTF-8 encoding of a code point: the bytes of Rust `char::to_string`. -/
def utf8EncodeCp (c : Nat) : List Nat :=
  if c < 0x80 then [c]
  else if c < 0x800 then [0xC0 + c / 64, 0x80 + c % 64]
  else if c < 0x10000 then [0xE0 + c / 4096, 0x80 + c / 64 % 64, 0x80 + c % 64]
  else [0xF0 + c / 262144, 0x80 + c / 4096 % 64, 0x80 + c / 64 % 64, 0x80 + c % 64]

/-- Fuel-driven minimal-width base-16 digit list (lowercase). -/
def natToHexAux : Nat → Nat → List Nat
  | 0, n => [hexDigitCp (n % 16)]
  | fuel + 1, n => if n < 16 then [hexDigitCp n] else natToHexAux fuel (n / 16) ++ [hexDigitCp (n % 16)]

/-- Digits printed by Rust `char::escape_unicode` between the braces:
the code point in lowercase hex, no leading zeros (`0` for zero). -/
def natToHex (n : Nat) : List Nat := natToHexAux n n

/-- Fuel-driven minimal-width base-10 digit list. -/
def natToDecAux : Nat → Nat → List Nat
  | 0, n => [48 + n % 10]
  | fuel + 1, n => if n < 10 then [48 + n] else natToDecAux fuel (n / 10) ++ [48 + n % 10]

/-- Digits of Rust `{}` display of a `u32`: the value in decimal. -/
def natToDec (n : Nat) : List Nat := natToDecAux n n

/-- `Formatter::write_char`: per-byte escapes in bytes mode, decimal
`\u{N}` in decimal mode, otherwise `char::escape_unicode`
(`\u{` + minimal lowercase hex + `}`). -/
def write_char (f : Formatter) (c : Nat) : List Nat :=
  if f.as_bytes then escBytes f (utf8EncodeCp c)
  else if f.hex_as_decimal then [92, 117, 123] ++ natToDec c ++ [125]
  else [92, 117, 123] ++ natToHex c ++ [125]

/-- A font program abstracted to its glyph-id mapping (`FontCow::glyph_id`);
glyph id 0 is the `notdef` glyph. -/
structure FontCow where
  glyph_id : Nat → Nat

/-- `is_char_in_fonts`: some font in the list maps the character to a
nonzero glyph id (short-circuiting on the first match). -/
def is_char_in_fonts (fonts : List FontCow) (c : Nat) : Bool :=
  match fonts with
  | [] => false
  | font :: rest => if font.glyph_id c != 0 then true else is_char_in_fonts rest c

/-- Rust `u8::is_ascii_control` lifted to code points `≤ 0x7F`:
`char::is_ascii_control` is true for C0 controls and DEL. -/
def isAsciiControl (c : Nat) : Bool := decide (c ≤ 0x1F ∨ c = 0x7F)

/-- Rust `char::is_whitespace`: the Unicode `White_Space` property. -/
def rustIsWhitespace (c : Nat) : Bool :=
  decide (c = 0x9 ∨ c = 0xA ∨ c = 0xB ∨ c = 0xC ∨ c = 0xD ∨ c = 0x20 ∨ c = 0x85 ∨ c = 0xA0 ∨
    c = 0x1680 ∨ (0x2000 ≤ c ∧ c ≤ 0x200A) ∨ c = 0x2028 ∨ c = 0x2029 ∨ c = 0x202F ∨ c = 0x205F ∨
    c = 0x3000)

/-- Rust `char::is_ascii`. -/
def isAscii (c : Nat) : Bool := decide (c ≤ 0x7F)

/-- The code points of the string literal written for a space under
`space_as_circle` in `src/main.rs` (the file contains the four characters
U+00F0 U+0178 U+017E U+201E at that literal). -/
def circleOut : List Nat := [0xF0, 0x178, 0x17E, 0x201E]

/-- One iteration of the loop body of `Formatter::process_str` for the
decoded unit `(span, c)`: the re-encoding round-trip check, then the
guarded match arms in source order. -/
def processUnit (f : Formatter) (fonts : List FontCow) (span : List Nat) (c : Nat) : List Nat :=
  if span ≠ utf8EncodeCp c then escBytes f span
  else if f.all_as_hex then write_char f c
  else if c == 10 && f.newline_escaped then [92, 110]
  else if c == 10 && !f.newline_as_hex then [10]
  else if c == 13 && !f.carriage_return_as_hex then [92, 114]
  else if c == 9 && !f.tab_as_hex then [92, 116]
  else if c == 32 && f.space_as_circle then circleOut
  else if isAsciiControl c || (c != 32 && rustIsWhitespace c) || (c == 32 && f.space_as_hex)
      || (!isAscii c && !is_char_in_fonts fonts c) then write_char f c
  else [c]

/-- A UTF-8 continuation byte. -/
def isCont (b : Nat) : Bool := decide (0x80 ≤ b ∧ b ≤ 0xBF)

/-- One step of `bstr` UTF-8 decoding on the bytes `b0 :: bs`: the decoded
unit `(span, code point)` together with the remaining bytes. An invalid
span is the maximal subpart of a valid sequence (at least one byte) and
decodes to U+FFFD. -/
def decodeOne (b0 : Nat) (bs : List Nat) : (List Nat × Nat) × List Nat :=
  if b0 < 0x80 then (([b0], b0), bs)
  else if b0 < 0xC2 then (([b0], 0xFFFD), bs)
  else if b0 < 0xE0 then
    match bs with
    | [] => (([b0], 0xFFFD), [])
    | b1 :: bs1 =>
      if isCont b1 then (([b0, b1], (b0 - 0xC0) * 64 + (b1 - 0x80)), bs1)
      else (([b0], 0xFFFD), b1 :: bs1)
  else if b0 < 0xF0 then
    match bs with
    | [] => (([b0], 0xFFFD), [])
    | b1 :: bs1 =>
      if (if b0 = 0xE0 then 0xA0 else 0x80) ≤ b1 ∧ b1 ≤ (if b0 = 0xED then 0x9F else 0xBF) then
        match bs1 with
        | [] => (([b0, b1], 0xFFFD), [])
        | b2 :: bs2 =>
          if isCont b2 then
            (([b0, b1, b2], (b0 - 0xE0) * 4096 + (b1 - 0x80) * 64 + (b2 - 0x80)), bs2)
          else (([b0, b1], 0xFFFD), b2 :: bs2)
      else (([b0], 0xFFFD), b1 :: bs1)
  else if b0 < 0xF5 then
    match bs with
    | [] => (([b0], 0xFFFD), [])
    | b1 :: bs1 =>
      if (if b0 = 0xF0 then 0x90 else 0x80) ≤ b1 ∧ b1 ≤ (if b0 = 0xF4 then 0x8F else 0xBF) then
        match bs1 with
        | [] => (([b0, b1], 0xFFFD), [])
        | b2 :: bs2 =>
          if isCont b2 then
            match bs2 with
            | [] => (([b0, b1, b2], 0xFFFD), [])
            | b3 :: bs3 =>
              if isCont b3 then
                (([b0, b1, b2, b3],
                  (b0 - 0xF0) * 262144 + (b1 - 0x80) * 4096 + (b2 - 0x80) * 64 + (b3 - 0x80)), bs3)
              else (([b0, b1, b2], 0xFFFD), b3 :: bs3)
          else (([b0, b1], 0xFFFD), b2 :: bs2)
      else (([b0], 0xFFFD), b1 :: bs1)
  else (([b0], 0xFFFD), bs)

/-- Fuel-driven worker for `charIndices`; the fuel (an upper bound on the
number of decoded units, e.g. the buffer length) only forces structural
recursion and never runs out when `buffer.length ≤ fuel`. -/
def charIndicesAux : Nat → List Nat → List (List Nat × Nat)
  | 0, _ => []
  | _ + 1, [] => []
  | fuel + 1, b0 :: bs => (decodeOne b0 bs).1 :: charIndicesAux fuel (decodeOne b0 bs).2

/-- `bstr` `ByteSlice::char_indices` over a byte buffer: the sequence of
decoded units `(byte span, code point)`. -/
def charIndices (buffer : List Nat) : List (List Nat × Nat) :=
  charIndicesAux buffer.length buffer

/-- Fold `processUnit` over a list of decoded units. -/
def processUnits (f : Formatter) (fonts : List FontCow) : List (List Nat × Nat) → List Nat
  | [] => []
  | (s, c) :: us => processUnit f fonts s c ++ processUnits f fonts us

/-- `Formatter::process_str`: iterate `char_indices` over the buffer,
handling each decoded unit. -/
def process_str (f : Formatter) (fonts : List FontCow) (buffer : List Nat) : List Nat :=
  processUnits f fonts (charIndices buffer)

/-- The trailing line terminator of `main`: written once, after the input
loop, iff stdout is a terminal and one of the three newline-producing
flags is set. -/
def finalNewline (f : Formatter) (isTerminal : Bool) : List Nat :=
  if isTerminal && (f.all_as_hex || f.newline_escaped || f.newline_as_hex) then [10] else []

/-- Whole-buffer run of `main` after flag resolution: the raw-byte fast
path when both `-a` and `-b` are active, otherwise the full pipeline; then
the trailing-newline check once. -/
def runWholeBuffer (f : Formatter) (fonts : List FontCow) (buffer : List Nat)
    (isTerminal : Bool) : List Nat :=
  (if f.all_as_hex && f.as_bytes then escBytes f buffer else process_str f fonts buffer) ++
    finalNewline f isTerminal

/-- Split a byte stream into the successive chunks returned by
`read_until(b'\n')`: each chunk ends with `\n` except possibly the last. -/
def lineChunks : List Nat → List (List Nat)
  | [] => []
  | b :: bs =>
    if b == 10 then [10] :: lineChunks bs
    else
      match lineChunks bs with
      | [] => [[b]]
      | chunk :: chunks => (b :: chunk) :: chunks

/-- Concatenate a list of output fragments. -/
def joinAll : List (List Nat) → List Nat
  | [] => []
  | l :: ls => l ++ joinAll ls

/-- Line-by-line run of `main`: each `read_until` chunk is processed
independently (fast path or full pipeline), and the trailing-newline check
runs once after the loop, never per chunk. -/
def runLineByLine (f : Formatter) (fonts : List FontCow) (buffer : List Nat)
    (isTerminal : Bool) : List Nat :=
  (if f.all_as_hex && f.as_bytes then joinAll ((lineChunks buffer).map (escBytes f))
   else joinAll ((lineChunks buffer).map (process_str f fonts))) ++ finalNewline f isTerminal

/-- The formatter with every flag off. -/
def noFlags : Formatter := ⟨false, false, false, false, false, false, false, false, false⟩

/-- A Unicode scalar value (what a Rust `char` can hold). -/
def UnicodeScalar (c : Nat) : Prop := c < 0xD800 ∨ (0xE000 ≤ c ∧ c ≤ 0x10FFFF)

instance (c : Nat) : Decidable (UnicodeScalar c) := by
  unfold UnicodeScalar; infer_instance

/-- UTF-8 encoding of a list of code points. -/
def encodeAll : List Nat → List Nat
  | [] => []
  | c :: cs => utf8EncodeCp c ++ encodeAll cs

/-- Value of a lowercase hexadecimal (or decimal) digit code point. -/
def hexVal (d : Nat) : Nat := if d < 97 then d - 48 else d - 87

/-- Numeric value of a digit string between unicode-escape braces, read in
base 10 when the configuration is in decimal mode and base 16 otherwise. -/
def parseDigits (dec : Bool) (ds : List Nat) : Nat :=
  ds.foldl (fun a d => a * (if dec then 10 else 16) + hexVal d) 0

/-- Modelled from the spec: un-escaping output "according to the same
configuration's encoding rules" (spec section 8, round-trip law); the
source contains no un-escaper. `dec` is the configuration's decimal mode.
Escape tokens are mapped back to the byte or character they encode, and
every other character maps back to its UTF-8 bytes. -/
def unescape (dec : Bool) : List Nat → List Nat
  | 92 :: 110 :: r => 10 :: unescape dec r
  | 92 :: 114 :: r => 13 :: unescape dec r
  | 92 :: 116 :: r => 9 :: unescape dec r
  | 92 :: 120 :: h1 :: h2 :: r => (hexVal h1 * 16 + hexVal h2) :: unescape dec r
  | 92 :: 100 :: d1 :: d2 :: d3 :: r =>
      ((d1 - 48) * 100 + (d2 - 48) * 10 + (d3 - 48)) :: unescape dec r
  | 92 :: 117 :: 123 :: r =>
      utf8EncodeCp (parseDigits dec (r.takeWhile (fun d => d != 125))) ++
        unescape dec ((r.dropWhile (fun d => d != 125)).drop 1)
  | 92 :: r => unescape dec r
  | c :: r => utf8EncodeCp c ++ unescape dec r
  | [] => []
termination_by l => l.length
decreasing_by
  all_goals simp only [List.length_cons, List.length_drop]
  all_goals try omega
  have h := (List.dropWhile_sublist (l := r) (fun d => d != 125)).length_le
  omega

/-- The formatter whose `all_as_hex` and `as_bytes` flags are set (`-a -b`). -/
def fastFlags : Formatter := { noFlags with all_as_hex := true, as_bytes := true }

/-- The formatter with only `hex_as_decimal` set (`-d`). -/
def decimalFlags : Formatter := { noFlags with hex_as_decimal := true }

/-- The formatter with only `tab_as_hex` set (`-t`). -/
def tabHexFlags : Formatter := { noFlags with tab_as_hex := true }

lemma utf8EncodeCp_one {c : Nat} (h : c < 0x80) : utf8EncodeCp c = [c] := by
  unfold utf8EncodeCp
  rw [if_pos h]

lemma utf8EncodeCp_two {c : Nat} (h1 : 0x80 ≤ c) (h2 : c < 0x800) :
    utf8EncodeCp c = [0xC0 + c / 64, 0x80 + c % 64] := by
  unfold utf8EncodeCp
  rw [if_neg (by omega), if_pos h2]

lemma utf8EncodeCp_three {c : Nat} (h1 : 0x800 ≤ c) (h2 : c < 0x10000) :
    utf8EncodeCp c = [0xE0 + c / 4096, 0x80 + c / 64 % 64, 0x80 + c % 64] := by
  unfold utf8EncodeCp
  rw [if_neg (by omega), if_neg (by omega), if_pos h2]

lemma utf8EncodeCp_four {c : Nat} (h1 : 0x10000 ≤ c) :
    utf8EncodeCp c = [0xF0 + c / 262144, 0x80 + c / 4096 % 64, 0x80 + c / 64 % 64, 0x80 + c % 64] := by
  unfold utf8EncodeCp
  rw [if_neg (by omega), if_neg (by omega), if_neg (by omega)]

lemma encode_span_two {b0 b1 : Nat} (h0 : 0xC2 ≤ b0) (h0' : b0 < 0xE0)
    (h1 : 0x80 ≤ b1) (h1' : b1 ≤ 0xBF) :
    utf8EncodeCp ((b0 - 0xC0) * 64 + (b1 - 0x80)) = [b0, b1] := by
  rw [utf8EncodeCp_two (by omega) (by omega)]
  simp only [List.cons.injEq, and_true]
  omega

lemma encode_span_three {b0 b1 b2 : Nat} (h0 : 0xE0 ≤ b0) (h0' : b0 < 0xF0)
    (h1 : (if b0 = 0xE0 then 0xA0 else 0x80) ≤ b1) (h1' : b1 ≤ (if b0 = 0xED then 0x9F else 0xBF))
    (h2 : 0x80 ≤ b2) (h2' : b2 ≤ 0xBF) :
    utf8EncodeCp ((b0 - 0xE0) * 4096 + (b1 - 0x80) * 64 + (b2 - 0x80)) = [b0, b1, b2] := by
  rcases eq_or_ne b0 0xE0 with he | he
  · subst he
    rw [if_pos rfl] at h1
    rw [if_neg (by omega)] at h1'
    rw [utf8EncodeCp_three (by omega) (by omega)]
    simp only [List.cons.injEq, and_true]
    omega
  · rw [if_neg he] at h1
    rcases eq_or_ne b0 0xED with hd | hd
    · subst hd
      rw [if_pos rfl] at h1'
      rw [utf8EncodeCp_three (by omega) (by omega)]
      simp only [List.cons.injEq, and_true]
      omega
    · rw [if_neg hd] at h1'
      rw [utf8EncodeCp_three (by omega) (by omega)]
      simp only [List.cons.injEq, and_true]
      omega

lemma encode_span_four {b0 b1 b2 b3 : Nat} (h0 : 0xF0 ≤ b0) (h0' : b0 < 0xF5)
    (h1 : (if b0 = 0xF0 then 0x90 else 0x80) ≤ b1) (h1' : b1 ≤ (if b0 = 0xF4 then 0x8F else 0xBF))
    (h2 : 0x80 ≤ b2) (h2' : b2 ≤ 0xBF) (h3 : 0x80 ≤ b3) (h3' : b3 ≤ 0xBF) :
    utf8EncodeCp ((b0 - 0xF0) * 262144 + (b1 - 0x80) * 4096 + (b2 - 0x80) * 64 + (b3 - 0x80)) =
      [b0, b1, b2, b3] := by
  rcases eq_or_ne b0 0xF0 with he | he
  · subst he
    rw [if_pos rfl] at h1
    rw [if_neg (by omega)] at h1'
    rw [utf8EncodeCp_four (by omega)]
    simp only [List.cons.injEq, and_true]
    omega
  · rw [if_neg he] at h1
    rcases eq_or_ne b0 0xF4 with hd | hd
    · subst hd
      rw [if_pos rfl] at h1'
      rw [utf8EncodeCp_four (by omega)]
      simp only [List.cons.injEq, and_true]
      omega
    · rw [if_neg hd] at h1'
      rw [utf8EncodeCp_four (by omega)]
      simp only [List.cons.injEq, and_true]
      omega

lemma isCont_iff {b : Nat} : isCont b = true ↔ 0x80 ≤ b ∧ b ≤ 0xBF := by
  simp [isCont]

lemma utf8EncodeCp_fffd : utf8EncodeCp 0xFFFD = [239, 191, 189] := by decide

/-- Case analysis on one decoding step: the span and the rest concatenate
back to the input, the rest shrank, and the unit either passes the
re-encoding round-trip check or is an invalid span carrying U+FFFD. -/
lemma decodeOne_spec (b0 : Nat) (bs : List Nat) :
    (decodeOne b0 bs).1.1 ++ (decodeOne b0 bs).2 = b0 :: bs ∧
      (decodeOne b0 bs).2.length ≤ bs.length ∧
      ((decodeOne b0 bs).1.1 = utf8EncodeCp (decodeOne b0 bs).1.2 ∨
        ((decodeOne b0 bs).1.2 = 0xFFFD ∧ (decodeOne b0 bs).1.1 ≠ utf8EncodeCp 0xFFFD)) := by
  have hF := utf8EncodeCp_fffd
  by_cases hA : b0 < 0x80
  · simp only [decodeOne, if_pos hA]
    exact ⟨by simp, le_rfl, Or.inl (utf8EncodeCp_one hA).symm⟩
  by_cases hB : b0 < 0xC2
  · simp only [decodeOne, if_neg hA, if_pos hB]
    exact ⟨by simp, le_rfl, Or.inr ⟨by trivial, by simp [hF]⟩⟩
  by_cases hC : b0 < 0xE0
  · rcases bs with _ | ⟨b1, bs1⟩
    · simp only [decodeOne, if_neg hA, if_neg hB, if_pos hC]
      exact ⟨by simp, by simp, Or.inr ⟨by trivial, by simp [hF]⟩⟩
    by_cases hc1 : isCont b1 = true
    · simp only [decodeOne, if_neg hA, if_neg hB, if_pos hC, if_pos hc1]
      refine ⟨by simp, by simp only [List.length_cons]; omega, Or.inl ?_⟩
      exact (encode_span_two (by omega) hC (isCont_iff.mp hc1).1 (isCont_iff.mp hc1).2).symm
    · simp only [decodeOne, if_neg hA, if_neg hB, if_pos hC, if_neg hc1]
      exact ⟨by simp, le_rfl, Or.inr ⟨by trivial, by simp [hF]⟩⟩
  by_cases hD : b0 < 0xF0
  · rcases bs with _ | ⟨b1, bs1⟩
    · simp only [decodeOne, if_neg hA, if_neg hB, if_neg hC, if_pos hD]
      exact ⟨by simp, by simp, Or.inr ⟨by trivial, by simp [hF]⟩⟩
    by_cases hr1 : (if b0 = 0xE0 then 0xA0 else 0x80) ≤ b1 ∧ b1 ≤ (if b0 = 0xED then 0x9F else 0xBF)
    · rcases bs1 with _ | ⟨b2, bs2⟩
      · simp only [decodeOne, if_neg hA, if_neg hB, if_neg hC, if_pos hD, if_pos hr1]
        exact ⟨by simp, by simp, Or.inr ⟨by trivial, by simp [hF]⟩⟩
      by_cases hc2 : isCont b2 = true
      · simp only [decodeOne, if_neg hA, if_neg hB, if_neg hC, if_pos hD, if_pos hr1, if_pos hc2]
        refine ⟨by simp, by simp only [List.length_cons]; omega, Or.inl ?_⟩
        exact (encode_span_three (by omega) hD hr1.1 hr1.2 (isCont_iff.mp hc2).1
          (isCont_iff.mp hc2).2).symm
      · simp only [decodeOne, if_neg hA, if_neg hB, if_neg hC, if_pos hD, if_pos hr1, if_neg hc2]
        exact ⟨by simp, by simp only [List.length_cons]; omega, Or.inr ⟨by trivial, by simp [hF]⟩⟩
    · simp only [decodeOne, if_neg hA, if_neg hB, if_neg hC, if_pos hD, if_neg hr1]
      exact ⟨by simp, le_rfl, Or.inr ⟨by trivial, by simp [hF]⟩⟩
  by_cases hE : b0 < 0xF5
  · rcases bs with _ | ⟨b1, bs1⟩
    · simp only [decodeOne, if_neg hA, if_neg hB, if_neg hC, if_neg hD, if_pos hE]
      exact ⟨by simp, by simp, Or.inr ⟨by trivial, by simp [hF]⟩⟩
    by_cases hr1 : (if b0 = 0xF0 then 0x90 else 0x80) ≤ b1 ∧ b1 ≤ (if b0 = 0xF4 then 0x8F else 0xBF)
    · rcases bs1 with _ | ⟨b2, bs2⟩
      · simp only [decodeOne, if_neg hA, if_neg hB, if_neg hC, if_neg hD, if_pos hE, if_pos hr1]
        exact ⟨by simp, by simp, Or.inr ⟨by trivial, by simp [hF]⟩⟩
      by_cases hc2 : isCont b2 = true
      · rcases bs2 with _ | ⟨b3, bs3⟩
        · simp only [decodeOne, if_neg hA, if_neg hB, if_neg hC, if_neg hD, if_pos hE, if_pos hr1,
            if_pos hc2]
          refine ⟨by simp, by simp, Or.inr ⟨by trivial, ?_⟩⟩
          simp [hF]
          omega
        by_cases hc3 : isCont b3 = true
        · simp only [decodeOne, if_neg hA, if_neg hB, if_neg hC, if_neg hD, if_pos hE, if_pos hr1,
            if_pos hc2, if_pos hc3]
          refine ⟨by simp, by simp only [List.length_cons]; omega, Or.inl ?_⟩
          exact (encode_span_four (by omega) hE hr1.1 hr1.2 (isCont_iff.mp hc2).1
            (isCont_iff.mp hc2).2 (isCont_iff.mp hc3).1 (isCont_iff.mp hc3).2).symm
        · simp only [decodeOne, if_neg hA, if_neg hB, if_neg hC, if_neg hD, if_pos hE, if_pos hr1,
            if_pos hc2, if_neg hc3]
          refine ⟨by simp, by simp only [List.length_cons]; omega, Or.inr ⟨by trivial, ?_⟩⟩
          simp [hF]
          omega
      · simp only [decodeOne, if_neg hA, if_neg hB, if_neg hC, if_neg hD, if_pos hE, if_pos hr1,
          if_neg hc2]
        exact ⟨by simp, by simp only [List.length_cons]; omega, Or.inr ⟨by trivial, by simp [hF]⟩⟩
    · simp only [decodeOne, if_neg hA, if_neg hB, if_neg hC, if_neg hD, if_pos hE, if_neg hr1]
      exact ⟨by simp, le_rfl, Or.inr ⟨by trivial, by simp [hF]⟩⟩
  · simp only [decodeOne, if_neg hA, if_neg hB, if_neg hC, if_neg hD, if_neg hE]
    exact ⟨by simp, le_rfl, Or.inr ⟨by trivial, by simp [hF]⟩⟩

lemma decodeOne_join (b0 : Nat) (bs : List Nat) :
    (decodeOne b0 bs).1.1 ++ (decodeOne b0 bs).2 = b0 :: bs :=
  (decodeOne_spec b0 bs).1

lemma decodeOne_rest_length (b0 : Nat) (bs : List Nat) :
    (decodeOne b0 bs).2.length ≤ bs.length :=
  (decodeOne_spec b0 bs).2.1

/-- A decoded unit either passes the re-encoding round-trip check of
`process_str` or is an invalid span carrying the replacement character. -/
def UnitOk (s : List Nat) (c : Nat) : Prop :=
  s = utf8EncodeCp c ∨ (c = 0xFFFD ∧ s ≠ utf8EncodeCp 0xFFFD)

lemma decodeOne_unitOk (b0 : Nat) (bs : List Nat) :
    UnitOk (decodeOne b0 bs).1.1 (decodeOne b0 bs).1.2 :=
  (decodeOne_spec b0 bs).2.2

lemma charIndicesAux_nil (fuel : Nat) : charIndicesAux fuel [] = [] := by
  cases fuel <;> rfl

lemma charIndicesAux_congr :
    ∀ (f1 : Nat) (bs : List Nat) (f2 : Nat), bs.length ≤ f1 → bs.length ≤ f2 →
      charIndicesAux f1 bs = charIndicesAux f2 bs := by
  intro f1
  induction f1 with
  | zero =>
    intro bs f2 h1 _
    rcases bs with _ | ⟨b0, bs⟩
    · rw [charIndicesAux_nil, charIndicesAux_nil]
    · simp at h1
  | succ f1 ih =>
    intro bs f2 h1 h2
    rcases bs with _ | ⟨b0, bs⟩
    · rw [charIndicesAux_nil, charIndicesAux_nil]
    rcases f2 with _ | f2
    · simp at h2
    simp only [charIndicesAux]
    congr 1
    have hr := decodeOne_rest_length b0 bs
    simp only [List.length_cons] at h1 h2
    exact ih _ f2 (by omega) (by omega)

lemma charIndices_nil : charIndices [] = [] := rfl

lemma charIndices_cons (b0 : Nat) (bs : List Nat) :
    charIndices (b0 :: bs) = (decodeOne b0 bs).1 :: charIndices (decodeOne b0 bs).2 := by
  unfold charIndices
  simp only [List.length_cons, charIndicesAux]
  congr 1
  exact charIndicesAux_congr _ _ _ (decodeOne_rest_length b0 bs) le_rfl

lemma charIndices_join_aux :
    ∀ (n : Nat) (bs : List Nat), bs.length ≤ n → joinAll ((charIndices bs).map Prod.fst) = bs := by
  intro n
  induction n with
  | zero =>
    intro bs h
    rcases bs with _ | ⟨b0, bs⟩
    · rfl
    · simp at h
  | succ n ih =>
    intro bs h
    rcases bs with _ | ⟨b0, bs⟩
    · rfl
    rw [charIndices_cons, List.map_cons]
    simp only [joinAll]
    have hr := decodeOne_rest_length b0 bs
    simp only [List.length_cons] at h
    rw [ih _ (by omega)]
    exact decodeOne_join b0 bs

/-- The spans of the decoded units concatenate back to the input buffer. -/
lemma charIndices_join (bs : List Nat) : joinAll ((charIndices bs).map Prod.fst) = bs :=
  charIndices_join_aux bs.length bs le_rfl

lemma charIndices_unitOk_aux :
    ∀ (n : Nat) (bs : List Nat), bs.length ≤ n → ∀ p ∈ charIndices bs, UnitOk p.1 p.2 := by
  intro n
  induction n with
  | zero =>
    intro bs h p hp
    rcases bs with _ | ⟨b0, bs⟩
    · simp [charIndices_nil] at hp
    · simp at h
  | succ n ih =>
    intro bs h p hp
    rcases bs with _ | ⟨b0, bs⟩
    · simp [charIndices_nil] at hp
    rw [charIndices_cons] at hp
    have hr := decodeOne_rest_length b0 bs
    simp only [List.length_cons] at h
    rcases List.mem_cons.mp hp with hp | hp
    · exact hp ▸ decodeOne_unitOk b0 bs
    · exact ih _ (by omega) p hp

/-- Every decoded unit satisfies the round-trip dichotomy. -/
lemma charIndices_unitOk (bs : List Nat) : ∀ p ∈ charIndices bs, UnitOk p.1 p.2 :=
  charIndices_unitOk_aux bs.length bs le_rfl

lemma process_str_nil (f : Formatter) (fonts : List FontCow) : process_str f fonts [] = [] := rfl

lemma process_str_cons (f : Formatter) (fonts : List FontCow) (b0 : Nat) (bs : List Nat) :
    process_str f fonts (b0 :: bs) =
      processUnit f fonts (decodeOne b0 bs).1.1 (decodeOne b0 bs).1.2 ++
        process_str f fonts (decodeOne b0 bs).2 := by
  unfold process_str
  rw [charIndices_cons]
  rfl

lemma escBytes_append (f : Formatter) (xs ys : List Nat) :
    escBytes f (xs ++ ys) = escBytes f xs ++ escBytes f ys := by
  induction xs with
  | nil => rfl
  | cons x xs ih => simp only [List.cons_append, escBytes, List.append_eq, ih, List.append_assoc]

example : process_str noFlags [] [65, 10] = [65, 10] := by decide
example : process_str { noFlags with newline_escaped := true } [] [65, 10] = [65, 92, 110] := by decide
example : process_str noFlags [] [255] = [92, 120, 102, 102] := by decide
example : process_str noFlags [] [0xF0, 0x9F, 0x98, 0x80] = [92, 117, 123, 49, 102, 54, 48, 48, 125] := by
  decide
example : process_str { noFlags with space_as_circle := true } [] [32] = circleOut := by decide
example : process_str { noFlags with tab_as_hex := true } [] [9] = [92, 117, 123, 57, 125] := by decide
example : process_str noFlags [] [13] = [92, 114] := by decide
example : process_str noFlags [] [92, 114] = [92, 114] := by decide
example : process_str { noFlags with hex_as_decimal := true } [] [255] = [92, 100, 50, 53, 53] := by decide
example : process_str noFlags [] [239, 191, 189] = [92, 117, 123, 102, 102, 102, 100, 125] := by decide
example : process_str noFlags [⟨fun c => if c = 0x1F600 then 7 else 0⟩] [0xF0, 0x9F, 0x98, 0x80] =
    [0x1F600] := by decide

lemma write_byte_ext (f g : Formatter) (h : f.hex_as_decimal = g.hex_as_decimal) (b : Nat) :
    write_byte f b = write_byte g b := by
  unfold write_byte
  rw [h]

lemma escBytes_ext (f g : Formatter) (h : f.hex_as_decimal = g.hex_as_decimal) :
    ∀ bs, escBytes f bs = escBytes g bs := by
  intro bs
  induction bs with
  | nil => rfl
  | cons b bs ih => simp only [escBytes, write_byte_ext f g h, ih]

lemma write_char_ext (f g : Formatter) (hb : f.as_bytes = g.as_bytes)
    (hd : f.hex_as_decimal = g.hex_as_decimal) (c : Nat) : write_char f c = write_char g c := by
  unfold write_char
  rw [hb, hd, escBytes_ext f g hd]

lemma processUnit_allhex_bytes (f : Formatter) (fonts : List FontCow)
    (h1 : f.all_as_hex = true) (h2 : f.as_bytes = true) (s : List Nat) (c : Nat)
    (hok : UnitOk s c) : processUnit f fonts s c = escBytes f s := by
  rcases hok with hs | ⟨hc, hs⟩
  · unfold processUnit
    rw [if_neg (by simp [hs]), if_pos h1]
    unfold write_char
    rw [if_pos h2, ← hs]
  · subst hc
    unfold processUnit
    rw [if_pos hs]

lemma processUnits_escBytes (f : Formatter) (fonts : List FontCow)
    (h1 : f.all_as_hex = true) (h2 : f.as_bytes = true) :
    ∀ us, (∀ p ∈ us, UnitOk p.1 p.2) →
      processUnits f fonts us = escBytes f (joinAll (us.map Prod.fst)) := by
  intro us
  induction us with
  | nil => intro _; rfl
  | cons p us ih =>
    intro h
    rcases p with ⟨s, c⟩
    simp only [processUnits, List.map_cons, joinAll]
    rw [escBytes_append,
      processUnit_allhex_bytes f fonts h1 h2 s c (h (s, c) (List.mem_cons_self _ _)),
      ih fun q hq => h q (List.mem_cons_of_mem _ hq)]

/-- C2: when `all_hex_mode` and `bytes_mode` are both active, the raw-byte
fast path of `main` (escaping each input byte directly, skipping character
decoding) produces output identical to the full decode/classify/escape
pipeline `process_str`, for every input byte sequence and font set. -/
theorem C2_fastpath_equiv (f : Formatter) (fonts : List FontCow) (buffer : List Nat)
    (h1 : f.all_as_hex = true) (h2 : f.as_bytes = true) :
    escBytes f buffer = process_str f fonts buffer := by
  unfold process_str
  rw [processUnits_escBytes f fonts h1 h2 _ (charIndices_unitOk buffer), charIndices_join]

/-- Witness for C2 at a concrete configuration and buffer. -/
theorem C2_fastpath_equiv_witness :
    escBytes fastFlags [65, 255, 240, 159, 152, 128] =
      process_str fastFlags [] [65, 255, 240, 159, 152, 128] :=
  C2_fastpath_equiv fastFlags [] [65, 255, 240, 159, 152, 128] rfl rfl

/-- C3: a decoded unit that fails the round-trip check (its source bytes
did not decode to a single valid character, or the decoded character
re-encodes differently) is escaped byte by byte with `write_byte`, no
character-level rule is applied to it, and processing of the remaining
input continues (shown for every invalid lead byte, i.e. `0x80..0xC1` and
`0xF5..`). -/
theorem C3_invalid_bytewise :
    (∀ (f : Formatter) (fonts : List FontCow) (span : List Nat) (c : Nat),
        span ≠ utf8EncodeCp c → processUnit f fonts span c = escBytes f span) ∧
      ∀ (f : Formatter) (fonts : List FontCow) (b0 : Nat) (bs : List Nat),
        0x80 ≤ b0 → b0 < 0xC2 ∨ 0xF5 ≤ b0 →
          process_str f fonts (b0 :: bs) = escBytes f [b0] ++ process_str f fonts bs := by
  constructor
  · intro f fonts span c h
    unfold processUnit
    rw [if_pos h]
  · intro f fonts b0 bs hlo h
    have hd : decodeOne b0 bs = (([b0], 0xFFFD), bs) := by
      rcases h with h1 | h1
      · simp only [decodeOne, if_neg (show ¬b0 < 0x80 by omega), if_pos h1]
      · simp only [decodeOne, if_neg (show ¬b0 < 0x80 by omega),
          if_neg (show ¬b0 < 0xC2 by omega), if_neg (show ¬b0 < 0xE0 by omega),
          if_neg (show ¬b0 < 0xF0 by omega), if_neg (show ¬b0 < 0xF5 by omega)]
    rw [process_str_cons, hd]
    show processUnit f fonts [b0] 0xFFFD ++ process_str f fonts bs = _
    congr 1
    unfold processUnit
    rw [if_pos (by simp [utf8EncodeCp_fffd])]

/-- Witness for C3 at a concrete invalid byte. -/
theorem C3_invalid_bytewise_witness :
    processUnit noFlags [] [255] 0xFFFD = escBytes noFlags [255] ∧
      process_str noFlags [] [255, 65] = escBytes noFlags [255] ++ process_str noFlags [] [65] :=
  ⟨C3_invalid_bytewise.1 noFlags [] [255] 0xFFFD (by decide),
   C3_invalid_bytewise.2 noFlags [] 255 [65] (by decide) (Or.inr (by decide))⟩

/-- C7, counterexample: with `hex_as_decimal` set, the single byte `0xFF`
is printed as the decimal escape `\d255`, not as the hex escape `\xff`
that the claim promises for every flag combination. -/
theorem C7_decimal_counterexample :
    process_str decimalFlags [] [255] = [92, 100, 50, 53, 53] ∧
      process_str decimalFlags [] [255] ≠ [92, 120, 102, 102] := by decide

/-- C7, amended: for the single byte `0xFF` under any flags, the output is
`write_byte` of that byte: the hex escape `\xff`, or the decimal escape
`\d255` when `hex_as_decimal` is active. -/
theorem C7_single_ff_byte_escape (f : Formatter) (fonts : List FontCow) :
    process_str f fonts [255] = write_byte f 255 ∧
      write_byte f 255 =
        (if f.hex_as_decimal then [92, 100, 50, 53, 53] else [92, 120, 102, 102]) := by
  constructor
  · have hd : decodeOne 255 ([] : List Nat) = (([255], 0xFFFD), []) := rfl
    rw [process_str_cons, hd]
    show processUnit f fonts [255] 0xFFFD ++ process_str f fonts [] = _
    rw [process_str_nil, List.append_nil]
    unfold processUnit
    rw [if_pos (by simp [utf8EncodeCp_fffd])]
    show write_byte f 255 ++ [] = _
    rw [List.append_nil]
  · unfold write_byte
    cases hdq : f.hex_as_decimal <;> norm_num [hexDigitCp]

/-- C6: for the input consisting of a single tab with `tab_as_hex` set and
all other flags off, the tab's literal branch is bypassed and the general
escape condition fires, so the output is `write_char` of the tab's code
point, `\u{9}`, and not the literal `\t` token. -/
theorem C6_tab_hex (fonts : List FontCow) :
    process_str tabHexFlags fonts [9] = write_char tabHexFlags 9 ∧
      write_char tabHexFlags 9 = [92, 117, 123, 57, 125] ∧
      process_str tabHexFlags fonts [9] ≠ [92, 116] := by
  have h1 : process_str tabHexFlags fonts [9] = [92, 117, 123, 57, 125] := rfl
  exact ⟨rfl, rfl, by rw [h1]; decide⟩

/-- C10: the genuine three-byte encoding `EF BF BD` of U+FFFD passes the
re-encoding round-trip check, so the invalid-encoding rule does not fire
and the span is classified as a valid character (passed through when a
font has it, escaped as a character otherwise). -/
theorem C10_replacement_roundtrip (f : Formatter) (fonts : List FontCow) :
    utf8EncodeCp 0xFFFD = [239, 191, 189] ∧
      process_str f fonts [239, 191, 189] =
        (if f.all_as_hex then write_char f 0xFFFD
         else if is_char_in_fonts fonts 0xFFFD then [0xFFFD]
         else write_char f 0xFFFD) := by
  refine ⟨utf8EncodeCp_fffd, ?_⟩
  have hd : decodeOne 239 [191, 189] = (([239, 191, 189], 0xFFFD), []) := rfl
  rw [process_str_cons, hd]
  show processUnit f fonts [239, 191, 189] 0xFFFD ++ process_str f fonts [] = _
  rw [process_str_nil, List.append_nil]
  unfold processUnit
  rw [if_neg (by simp [utf8EncodeCp_fffd])]
  cases ha : f.all_as_hex <;> cases hf : is_char_in_fonts fonts 0xFFFD <;>
    simp [ha, hf, isAsciiControl, rustIsWhitespace, isAscii]

lemma charIndices_ascii :
    ∀ bs : List Nat, (∀ b ∈ bs, b < 0x80) → charIndices bs = bs.map fun b => ([b], b) := by
  intro bs
  induction bs with
  | nil => intro _; rfl
  | cons b0 bs ih =>
    intro h
    have hb : b0 < 0x80 := h b0 (List.mem_cons_self _ _)
    have hd : decodeOne b0 bs = (([b0], b0), bs) := by simp only [decodeOne, if_pos hb]
    rw [charIndices_cons, hd, List.map_cons]
    show ([b0], b0) :: charIndices bs = _
    rw [ih fun b hb' => h b (List.mem_cons_of_mem _ hb')]

lemma processUnit_ascii_fonts (f : Formatter) (fonts1 fonts2 : List FontCow) (c : Nat)
    (hc : c < 0x80) : processUnit f fonts1 [c] c = processUnit f fonts2 [c] c := by
  have ha : isAscii c = true := by
    simp only [isAscii, decide_eq_true_eq]
    omega
  simp only [processUnit, utf8EncodeCp_one hc, ha, Bool.not_true, Bool.false_and, Bool.or_false]

lemma processUnits_map_ascii (f : Formatter) (fonts1 fonts2 : List FontCow) :
    ∀ bs : List Nat, (∀ b ∈ bs, b < 0x80) →
      processUnits f fonts1 (bs.map fun b => ([b], b)) =
        processUnits f fonts2 (bs.map fun b => ([b], b)) := by
  intro bs
  induction bs with
  | nil => intro _; rfl
  | cons b0 bs ih =>
    intro h
    simp only [List.map_cons, processUnits]
    rw [processUnit_ascii_fonts f fonts1 fonts2 b0 (h b0 (List.mem_cons_self _ _)),
      ih fun b hb' => h b (List.mem_cons_of_mem _ hb')]

/-- C9: on input consisting solely of ASCII bytes, the output does not
depend on the loaded font set: the glyph-presence oracle is only consulted
for non-ASCII characters. -/
theorem C9_ascii_font_independence (f : Formatter) (fonts1 fonts2 : List FontCow)
    (bs : List Nat) (h : ∀ b ∈ bs, b < 0x80) :
    process_str f fonts1 bs = process_str f fonts2 bs := by
  unfold process_str
  rw [charIndices_ascii bs h]
  exact processUnits_map_ascii f fonts1 fonts2 bs h

/-- Witness for C9 at a concrete ASCII input and two font sets. -/
theorem C9_ascii_font_independence_witness :
    process_str noFlags [] [72, 9, 127] = process_str noFlags [⟨fun _ => 1⟩] [72, 9, 127] :=
  C9_ascii_font_independence noFlags [] [⟨fun _ => 1⟩] [72, 9, 127] (by decide)

/-- C8: in both driver modes the trailing line terminator is appended
exactly once, after the whole run (never per chunk), and it is nonempty
precisely when the sink is a terminal and one of `all_as_hex`,
`newline_escaped`, `newline_as_hex` is active. -/
theorem C8_trailing_newline (f : Formatter) (fonts : List FontCow) (buffer : List Nat) (t : Bool) :
    runWholeBuffer f fonts buffer t = runWholeBuffer f fonts buffer false ++ finalNewline f t ∧
      runLineByLine f fonts buffer t = runLineByLine f fonts buffer false ++ finalNewline f t ∧
      (finalNewline f t = [10] ↔
        t = true ∧ (f.all_as_hex || f.newline_escaped || f.newline_as_hex) = true) ∧
      finalNewline f false = [] ∧ (finalNewline f t).length ≤ 1 := by
  have hnil : finalNewline f false = [] := by simp [finalNewline]
  refine ⟨?_, ?_, ?_, hnil, ?_⟩
  · unfold runWholeBuffer
    rw [hnil, List.append_nil]
  · unfold runLineByLine
    rw [hnil, List.append_nil]
  · unfold finalNewline
    cases t <;> cases hx : (f.all_as_hex || f.newline_escaped || f.newline_as_hex) <;> simp [hx]
  · unfold finalNewline
    split <;> simp

lemma processUnit_nl_pair (f : Formatter) (fonts : List FontCow) (s : List Nat) (c : Nat) :
    processUnit { f with newline_escaped := true, newline_as_hex := true } fonts s c =
      processUnit { f with newline_escaped := true, newline_as_hex := false } fonts s c := by
  have e1 : ∀ x, write_char { f with newline_escaped := true, newline_as_hex := true } x =
      write_char { f with newline_escaped := true, newline_as_hex := false } x := fun x =>
    write_char_ext { f with newline_escaped := true, newline_as_hex := true }
      { f with newline_escaped := true, newline_as_hex := false } rfl rfl x
  have e2 : ∀ xs, escBytes { f with newline_escaped := true, newline_as_hex := true } xs =
      escBytes { f with newline_escaped := true, newline_as_hex := false } xs :=
    escBytes_ext { f with newline_escaped := true, newline_as_hex := true }
      { f with newline_escaped := true, newline_as_hex := false } rfl
  cases hc : c == 10
  · simp [processUnit, hc, e1, e2]
  · simp [processUnit, hc, e1, e2]

lemma processUnit_sp_pair (f : Formatter) (fonts : List FontCow) (s : List Nat) (c : Nat) :
    processUnit { f with space_as_circle := true, space_as_hex := true } fonts s c =
      processUnit { f with space_as_circle := true, space_as_hex := false } fonts s c := by
  have e1 : ∀ x, write_char { f with space_as_circle := true, space_as_hex := true } x =
      write_char { f with space_as_circle := true, space_as_hex := false } x := fun x =>
    write_char_ext { f with space_as_circle := true, space_as_hex := true }
      { f with space_as_circle := true, space_as_hex := false } rfl rfl x
  have e2 : ∀ xs, escBytes { f with space_as_circle := true, space_as_hex := true } xs =
      escBytes { f with space_as_circle := true, space_as_hex := false } xs :=
    escBytes_ext { f with space_as_circle := true, space_as_hex := true }
      { f with space_as_circle := true, space_as_hex := false } rfl
  cases hc : c == 32
  · simp [processUnit, hc, e1, e2]
  · have hc' : c = 32 := by simpa using hc
    subst hc'
    simp [processUnit, e1, e2]

lemma processUnits_ext (f1 f2 : Formatter) (fonts : List FontCow)
    (h : ∀ s c, processUnit f1 fonts s c = processUnit f2 fonts s c) :
    ∀ us, processUnits f1 fonts us = processUnits f2 fonts us := by
  intro us
  induction us with
  | nil => rfl
  | cons p us ih =>
    rcases p with ⟨s, c⟩
    simp only [processUnits, h, ih]

lemma process_str_ext (f1 f2 : Formatter) (fonts : List FontCow)
    (h : ∀ s c, processUnit f1 fonts s c = processUnit f2 fonts s c) (bs : List Nat) :
    process_str f1 fonts bs = process_str f2 fonts bs := by
  unfold process_str
  exact processUnits_ext f1 f2 fonts h _

lemma runWholeBuffer_ext (f1 f2 : Formatter) (fonts : List FontCow)
    (hb : f1.as_bytes = f2.as_bytes) (hh : f1.all_as_hex = f2.all_as_hex)
    (hd : f1.hex_as_decimal = f2.hex_as_decimal)
    (hfn : ∀ t, finalNewline f1 t = finalNewline f2 t)
    (hp : ∀ bs, process_str f1 fonts bs = process_str f2 fonts bs)
    (buffer : List Nat) (t : Bool) :
    runWholeBuffer f1 fonts buffer t = runWholeBuffer f2 fonts buffer t := by
  unfold runWholeBuffer
  rw [hb, hh, hfn, escBytes_ext f1 f2 hd buffer, hp]

lemma runLineByLine_ext (f1 f2 : Formatter) (fonts : List FontCow)
    (hb : f1.as_bytes = f2.as_bytes) (hh : f1.all_as_hex = f2.all_as_hex)
    (hd : f1.hex_as_decimal = f2.hex_as_decimal)
    (hfn : ∀ t, finalNewline f1 t = finalNewline f2 t)
    (hp : ∀ bs, process_str f1 fonts bs = process_str f2 fonts bs)
    (buffer : List Nat) (t : Bool) :
    runLineByLine f1 fonts buffer t = runLineByLine f2 fonts buffer t := by
  unfold runLineByLine
  rw [hb, hh, hfn, funext (escBytes_ext f1 f2 hd), funext hp]

/-- C5: enabling both flags of a mutually-exclusive pair behaves exactly
like enabling only the dominant one: `newline_escaped` wins over
`newline_as_hex` and `space_as_circle` wins over `space_as_hex`, for every
base configuration, font set, input and terminal state, in both driver
modes. -/
theorem C5_mutual_exclusivity (f : Formatter) (fonts : List FontCow) (buffer : List Nat)
    (t : Bool) :
    (runWholeBuffer { f with newline_escaped := true, newline_as_hex := true } fonts buffer t =
        runWholeBuffer { f with newline_escaped := true, newline_as_hex := false } fonts buffer t ∧
      runLineByLine { f with newline_escaped := true, newline_as_hex := true } fonts buffer t =
        runLineByLine { f with newline_escaped := true, newline_as_hex := false } fonts buffer t) ∧
      runWholeBuffer { f with space_as_circle := true, space_as_hex := true } fonts buffer t =
        runWholeBuffer { f with space_as_circle := true, space_as_hex := false } fonts buffer t ∧
      runLineByLine { f with space_as_circle := true, space_as_hex := true } fonts buffer t =
        runLineByLine { f with space_as_circle := true, space_as_hex := false } fonts buffer t := by
  have hfn : ∀ t' : Bool,
      finalNewline { f with newline_escaped := true, newline_as_hex := true } t' =
        finalNewline { f with newline_escaped := true, newline_as_hex := false } t' := by
    intro t'
    simp [finalNewline]
  have hp := process_str_ext _ _ fonts (processUnit_nl_pair f fonts)
  have hp' := process_str_ext _ _ fonts (processUnit_sp_pair f fonts)
  exact ⟨⟨runWholeBuffer_ext { f with newline_escaped := true, newline_as_hex := true }
        { f with newline_escaped := true, newline_as_hex := false } fonts rfl rfl rfl hfn hp
        buffer t,
      runLineByLine_ext { f with newline_escaped := true, newline_as_hex := true }
        { f with newline_escaped := true, newline_as_hex := false } fonts rfl rfl rfl hfn hp
        buffer t⟩,
    runWholeBuffer_ext { f with space_as_circle := true, space_as_hex := true }
      { f with space_as_circle := true, space_as_hex := false } fonts rfl rfl rfl (fun _ => rfl)
      hp' buffer t,
    runLineByLine_ext { f with space_as_circle := true, space_as_hex := true }
      { f with space_as_circle := true, space_as_hex := false } fonts rfl rfl rfl (fun _ => rfl)
      hp' buffer t⟩

lemma natToHexAux_congr :
    ∀ (f1 n f2 : Nat), n < 16 ^ (f1 + 1) → n < 16 ^ (f2 + 1) →
      natToHexAux f1 n = natToHexAux f2 n := by
  intro f1
  induction f1 with
  | zero =>
    intro n f2 h1 _
    have hn : n < 16 := by norm_num at h1; omega
    rcases f2 with _ | f2
    · rfl
    · simp only [natToHexAux, if_pos hn, Nat.mod_eq_of_lt hn]
  | succ f1 ih =>
    intro n f2 h1 h2
    rcases f2 with _ | f2
    · have hn : n < 16 := by norm_num at h2; omega
      simp only [natToHexAux, if_pos hn, Nat.mod_eq_of_lt hn]
    · simp only [natToHexAux]
      by_cases hn : n < 16
      · rw [if_pos hn, if_pos hn]
      · rw [if_neg hn, if_neg hn]
        congr 1
        apply ih
        · have hp : (16 : Nat) ^ (f1 + 1 + 1) = 16 ^ (f1 + 1) * 16 := pow_succ 16 (f1 + 1)
          rw [hp] at h1
          exact (Nat.div_lt_iff_lt_mul (by norm_num)).mpr h1
        · have hp : (16 : Nat) ^ (f2 + 1 + 1) = 16 ^ (f2 + 1) * 16 := pow_succ 16 (f2 + 1)
          rw [hp] at h2
          exact (Nat.div_lt_iff_lt_mul (by norm_num)).mpr h2

/-- The intended recursion equation of `natToHex`. -/
lemma natToHex_eq (n : Nat) :
    natToHex n = if n < 16 then [hexDigitCp n] else natToHex (n / 16) ++ [hexDigitCp (n % 16)] := by
  unfold natToHex
  by_cases hn : n < 16
  · rw [if_pos hn]
    rcases n with _ | m
    · rfl
    · simp only [natToHexAux, if_pos hn]
  · rw [if_neg hn]
    rcases n with _ | m
    · omega
    · simp only [natToHexAux, if_neg hn]
      congr 1
      apply natToHexAux_congr
      · have h1 : m + 1 < 16 ^ (m + 1) := Nat.lt_pow_self (by norm_num) _
        have h2 : (m + 1) / 16 ≤ m + 1 := Nat.div_le_self _ _
        omega
      · have h1 : (m + 1) / 16 < 16 ^ ((m + 1) / 16) := Nat.lt_pow_self (by norm_num) _
        have h2 : (16 : Nat) ^ ((m + 1) / 16) ≤ 16 ^ ((m + 1) / 16 + 1) :=
          Nat.pow_le_pow_right (by norm_num) (by omega)
        omega

lemma natToDecAux_congr :
    ∀ (f1 n f2 : Nat), n < 10 ^ (f1 + 1) → n < 10 ^ (f2 + 1) →
      natToDecAux f1 n = natToDecAux f2 n := by
  intro f1
  induction f1 with
  | zero =>
    intro n f2 h1 _
    have hn : n < 10 := by norm_num at h1; omega
    rcases f2 with _ | f2
    · rfl
    · simp only [natToDecAux, if_pos hn, Nat.mod_eq_of_lt hn]
  | succ f1 ih =>
    intro n f2 h1 h2
    rcases f2 with _ | f2
    · have hn : n < 10 := by norm_num at h2; omega
      simp only [natToDecAux, if_pos hn, Nat.mod_eq_of_lt hn]
    · simp only [natToDecAux]
      by_cases hn : n < 10
      · rw [if_pos hn, if_pos hn]
      · rw [if_neg hn, if_neg hn]
        congr 1
        apply ih
        · have hp : (10 : Nat) ^ (f1 + 1 + 1) = 10 ^ (f1 + 1) * 10 := pow_succ 10 (f1 + 1)
          rw [hp] at h1
          exact (Nat.div_lt_iff_lt_mul (by norm_num)).mpr h1
        · have hp : (10 : Nat) ^ (f2 + 1 + 1) = 10 ^ (f2 + 1) * 10 := pow_succ 10 (f2 + 1)
          rw [hp] at h2
          exact (Nat.div_lt_iff_lt_mul (by norm_num)).mpr h2

/-- The intended recursion equation of `natToDec`. -/
lemma natToDec_eq (n : Nat) :
    natToDec n = if n < 10 then [48 + n] else natToDec (n / 10) ++ [48 + n % 10] := by
  unfold natToDec
  by_cases hn : n < 10
  · rw [if_pos hn]
    rcases n with _ | m
    · rfl
    · simp only [natToDecAux, if_pos hn]
  · rw [if_neg hn]
    rcases n with _ | m
    · omega
    · simp only [natToDecAux, if_neg hn]
      congr 1
      apply natToDecAux_congr
      · have h1 : m + 1 < 10 ^ (m + 1) := Nat.lt_pow_self (by norm_num) _
        have h2 : (m + 1) / 10 ≤ m + 1 := Nat.div_le_self _ _
        omega
      · have h1 : (m + 1) / 10 < 10 ^ ((m + 1) / 10) := Nat.lt_pow_self (by norm_num) _
        have h2 : (10 : Nat) ^ ((m + 1) / 10) ≤ 10 ^ ((m + 1) / 10 + 1) :=
          Nat.pow_le_pow_right (by norm_num) (by omega)
        omega

lemma parseDigits_snoc (dec : Bool) (xs : List Nat) (d : Nat) :
    parseDigits dec (xs ++ [d]) = parseDigits dec xs * (if dec then 10 else 16) + hexVal d := by
  unfold parseDigits
  rw [List.foldl_append]
  rfl

lemma hexVal_hexDigitCp {x : Nat} (h : x < 16) : hexVal (hexDigitCp x) = x := by
  unfold hexVal hexDigitCp
  split_ifs <;> omega

lemma parse_natToHex : ∀ n, parseDigits false (natToHex n) = n := by
  intro n
  induction n using Nat.strong_induction_on with
  | _ n ih =>
    rw [natToHex_eq]
    by_cases hn : n < 16
    · rw [if_pos hn]
      simp [parseDigits, hexVal_hexDigitCp hn]
    · rw [if_neg hn, parseDigits_snoc, ih (n / 16) (Nat.div_lt_self (by omega) (by norm_num))]
      have := hexVal_hexDigitCp (x := n % 16) (Nat.mod_lt _ (by norm_num))
      simp only [Bool.false_eq_true, if_false]
      omega

lemma hexVal_decDigit {x : Nat} (h : x < 10) : hexVal (48 + x) = x := by
  unfold hexVal
  split_ifs <;> omega

lemma parse_natToDec : ∀ n, parseDigits true (natToDec n) = n := by
  intro n
  induction n using Nat.strong_induction_on with
  | _ n ih =>
    rw [natToDec_eq]
    by_cases hn : n < 10
    · rw [if_pos hn]
      simp [parseDigits, hexVal_decDigit hn]
    · rw [if_neg hn, parseDigits_snoc, ih (n / 10) (Nat.div_lt_self (by omega) (by norm_num))]
      have := hexVal_decDigit (x := n % 10) (Nat.mod_lt _ (by norm_num))
      simp only [if_true]
      omega

lemma natToHex_length_pos (n : Nat) : 1 ≤ (natToHex n).length := by
  rw [natToHex_eq]
  split <;> simp

lemma natToHex_length_le :
    ∀ (k : Nat), 1 ≤ k → ∀ n, n < 16 ^ k → (natToHex n).length ≤ k := by
  intro k
  induction k with
  | zero => omega
  | succ k ih =>
    intro _ n hn
    rw [natToHex_eq]
    by_cases h : n < 16
    · rw [if_pos h]
      simp
    · rw [if_neg h]
      have hk : 1 ≤ k := by
        rcases Nat.eq_zero_or_pos k with h0 | h0
        · subst h0
          norm_num at hn
          omega
        · exact h0
      have hdiv : n / 16 < 16 ^ k := by
        have hp : (16 : Nat) ^ (k + 1) = 16 ^ k * 16 := pow_succ 16 k
        rw [hp] at hn
        exact (Nat.div_lt_iff_lt_mul (by norm_num)).mpr hn
      have := ih hk (n / 16) hdiv
      simp only [List.length_append, List.length_cons, List.length_nil]
      omega

lemma natToHex_digit_range :
    ∀ n, ∀ d ∈ natToHex n, (48 ≤ d ∧ d ≤ 57) ∨ (97 ≤ d ∧ d ≤ 102) := by
  have hdig : ∀ x : Nat, (48 ≤ hexDigitCp x ∧ hexDigitCp x ≤ 57) ∨
      (97 ≤ hexDigitCp x ∧ hexDigitCp x ≤ 102) ∨ 103 ≤ hexDigitCp x := by
    intro x
    unfold hexDigitCp
    split_ifs <;> omega
  have hdig' : ∀ x : Nat, x < 16 → (48 ≤ hexDigitCp x ∧ hexDigitCp x ≤ 57) ∨
      (97 ≤ hexDigitCp x ∧ hexDigitCp x ≤ 102) := by
    intro x hx
    unfold hexDigitCp
    split_ifs <;> omega
  intro n
  induction n using Nat.strong_induction_on with
  | _ n ih =>
    intro d hd
    rw [natToHex_eq] at hd
    by_cases hn : n < 16
    · rw [if_pos hn] at hd
      simp only [List.mem_singleton] at hd
      subst hd
      exact hdig' n hn
    · rw [if_neg hn] at hd
      rcases List.mem_append.mp hd with h | h
      · exact ih (n / 16) (Nat.div_lt_self (by omega) (by norm_num)) d h
      · simp only [List.mem_singleton] at h
        subst h
        exact hdig' (n % 16) (Nat.mod_lt _ (by norm_num))

lemma natToHex_head_ne_zero :
    ∀ n, 1 ≤ n → ∀ d, (natToHex n).head? = some d → d ≠ 48 := by
  intro n
  induction n using Nat.strong_induction_on with
  | _ n ih =>
    intro hn d hd
    rw [natToHex_eq] at hd
    by_cases h : n < 16
    · rw [if_pos h] at hd
      simp only [List.head?_cons, Option.some.injEq] at hd
      subst hd
      unfold hexDigitCp
      split_ifs <;> omega
    · rw [if_neg h] at hd
      rcases hx : natToHex (n / 16) with _ | ⟨a, as⟩
      · have := natToHex_length_pos (n / 16)
        rw [hx] at this
        simp at this
      · rw [hx] at hd
        simp only [List.cons_append, List.head?_cons, Option.some.injEq] at hd
        exact hd ▸ ih (n / 16) (Nat.div_lt_self (by omega) (by norm_num)) (by omega) a
          (by rw [hx]; rfl)

/-- C4, counterexample: for the tab character the non-bytes, non-decimal
escape is `\u{9}` with a single hex digit, so the claimed 4-to-6-digit
form is impossible for this output. -/
theorem C4_width_counterexample :
    write_char noFlags 9 = [92, 117, 123, 57, 125] ∧
      ¬∃ ds : List Nat, write_char noFlags 9 = [92, 117, 123] ++ ds ++ [125] ∧
        4 ≤ ds.length ∧ ds.length ≤ 6 := by
  have he : write_char noFlags 9 = [92, 117, 123, 57, 125] := by decide
  refine ⟨he, ?_⟩
  rintro ⟨ds, h, h4, _⟩
  rw [he] at h
  have := congrArg List.length h
  simp only [List.length_append, List.length_cons, List.length_nil] at this
  omega

/-- C4, amended: with neither `bytes_mode` nor `decimal_mode` active,
`write_char` emits the code point as a 1-to-6-digit lowercase hex literal
between the unicode-escape delimiters `\u{` and `}`, with no leading zero
(so the digit count matches the code point's own hex width). -/
theorem C4_escape_unicode_form (f : Formatter) (c : Nat)
    (hb : f.as_bytes = false) (hd : f.hex_as_decimal = false) (hc : c ≤ 0x10FFFF) :
    write_char f c = [92, 117, 123] ++ natToHex c ++ [125] ∧
      1 ≤ (natToHex c).length ∧ (natToHex c).length ≤ 6 ∧
      (∀ d ∈ natToHex c, (48 ≤ d ∧ d ≤ 57) ∨ (97 ≤ d ∧ d ≤ 102)) ∧
      parseDigits false (natToHex c) = c ∧
      ∀ d, 16 ≤ c → (natToHex c).head? = some d → d ≠ 48 := by
  refine ⟨?_, natToHex_length_pos c, ?_, natToHex_digit_range c, parse_natToHex c, ?_⟩
  · unfold write_char
    rw [hb, hd]
    simp
  · exact natToHex_length_le 6 (by norm_num) c (by norm_num; omega)
  · intro d h16 hhd
    exact natToHex_head_ne_zero c (by omega) d hhd

/-- Witness for the amended C4 at the emoji U+1F600. -/
theorem C4_escape_unicode_form_witness :
    write_char noFlags 0x1F600 = [92, 117, 123] ++ natToHex 0x1F600 ++ [125] ∧
      1 ≤ (natToHex 0x1F600).length ∧ (natToHex 0x1F600).length ≤ 6 ∧
      (∀ d ∈ natToHex 0x1F600, (48 ≤ d ∧ d ≤ 57) ∨ (97 ≤ d ∧ d ≤ 102)) ∧
      parseDigits false (natToHex 0x1F600) = 0x1F600 ∧
      ∀ d, 16 ≤ 0x1F600 → (natToHex 0x1F600).head? = some d → d ≠ 48 :=
  C4_escape_unicode_form noFlags 0x1F600 rfl rfl (by norm_num)

lemma natToDec_digit_range :
    ∀ n, ∀ d ∈ natToDec n, 48 ≤ d ∧ d ≤ 57 := by
  intro n
  induction n using Nat.strong_induction_on with
  | _ n ih =>
    intro d hd
    rw [natToDec_eq] at hd
    by_cases hn : n < 10
    · rw [if_pos hn] at hd
      simp only [List.mem_singleton] at hd
      omega
    · rw [if_neg hn] at hd
      rcases List.mem_append.mp hd with h | h
      · exact ih (n / 10) (Nat.div_lt_self (by omega) (by norm_num)) d h
      · simp only [List.mem_singleton] at h
        have := Nat.mod_lt n (show 0 < 10 by norm_num)
        omega

lemma utf8EncodeCp_bytes_lt (c : Nat) (hc : c ≤ 0x10FFFF) : ∀ b ∈ utf8EncodeCp c, b < 256 := by
  intro b hb
  unfold utf8EncodeCp at hb
  split_ifs at hb with h1 h2 h3 <;> simp only [List.mem_cons, List.mem_singleton,
    List.not_mem_nil, or_false] at hb <;>
  · have d1 := Nat.mod_lt c (show 0 < 64 by norm_num)
    have d2 := Nat.mod_lt (c / 64) (show 0 < 64 by norm_num)
    have d3 := Nat.mod_lt (c / 4096) (show 0 < 64 by norm_num)
    omega

lemma unescape_nil (dec : Bool) : unescape dec [] = [] := by
  simp [unescape]

lemma unescape_n (dec : Bool) (r : List Nat) : unescape dec (92 :: 110 :: r) = 10 :: unescape dec r := by
  simp [unescape]

lemma unescape_r (dec : Bool) (r : List Nat) : unescape dec (92 :: 114 :: r) = 13 :: unescape dec r := by
  simp [unescape]

lemma unescape_t (dec : Bool) (r : List Nat) : unescape dec (92 :: 116 :: r) = 9 :: unescape dec r := by
  simp [unescape]

lemma unescape_x (dec : Bool) (h1 h2 : Nat) (r : List Nat) :
    unescape dec (92 :: 120 :: h1 :: h2 :: r) = (hexVal h1 * 16 + hexVal h2) :: unescape dec r := by
  simp [unescape]

lemma unescape_dec_token (dec : Bool) (d1 d2 d3 : Nat) (r : List Nat) :
    unescape dec (92 :: 100 :: d1 :: d2 :: d3 :: r) =
      ((d1 - 48) * 100 + (d2 - 48) * 10 + (d3 - 48)) :: unescape dec r := by
  simp [unescape]

lemma unescape_raw (dec : Bool) (c : Nat) (r : List Nat) (hc : c ≠ 92) :
    unescape dec (c :: r) = utf8EncodeCp c ++ unescape dec r := by
  rw [unescape.eq_def]
  split
  all_goals rename_i heq
  all_goals first
    | (injection heq with h1 h2
       first
         | exact absurd h1 hc
         | (subst h1; subst h2; rfl))
    | injection heq

lemma takeWhile_brace (ds r : List Nat) (h : ∀ d ∈ ds, d ≠ 125) :
    (ds ++ 125 :: r).takeWhile (fun d => d != 125) = ds ∧
      (ds ++ 125 :: r).dropWhile (fun d => d != 125) = 125 :: r := by
  induction ds with
  | nil => simp [List.takeWhile_cons, List.dropWhile_cons]
  | cons d ds ih =>
    have hd : (d != 125) = true := by
      simpa using h d (List.mem_cons_self _ _)
    obtain ⟨ih1, ih2⟩ := ih fun x hx => h x (List.mem_cons_of_mem _ hx)
    constructor
    · simp [List.takeWhile_cons, hd, ih1]
    · simp [List.dropWhile_cons, hd, ih2]

lemma unescape_u (dec : Bool) (ds r : List Nat) (h : ∀ d ∈ ds, d ≠ 125) :
    unescape dec (92 :: 117 :: 123 :: (ds ++ 125 :: r)) =
      utf8EncodeCp (parseDigits dec ds) ++ unescape dec r := by
  obtain ⟨h1, h2⟩ := takeWhile_brace ds r h
  simp only [unescape, h1, h2, List.drop_succ_cons, List.drop_zero]

lemma unescape_write_byte (f : Formatter) (b : Nat) (hb : b < 256) (r : List Nat) :
    unescape f.hex_as_decimal (write_byte f b ++ r) = b :: unescape f.hex_as_decimal r := by
  unfold write_byte
  cases hd : f.hex_as_decimal
  · simp only [Bool.false_eq_true, if_false, List.cons_append, List.nil_append]
    rw [unescape_x]
    have e1 := hexVal_hexDigitCp (x := b / 16 % 16) (Nat.mod_lt _ (by norm_num))
    have e2 := hexVal_hexDigitCp (x := b % 16) (Nat.mod_lt _ (by norm_num))
    congr 1
    omega
  · simp only [if_true, List.cons_append, List.nil_append]
    rw [unescape_dec_token]
    congr 1
    omega

lemma unescape_escBytes (f : Formatter) :
    ∀ bytes r, (∀ b ∈ bytes, b < 256) →
      unescape f.hex_as_decimal (escBytes f bytes ++ r) = bytes ++ unescape f.hex_as_decimal r := by
  intro bytes
  induction bytes with
  | nil => intro r _; rfl
  | cons b bytes ih =>
    intro r h
    simp only [escBytes, List.append_assoc]
    rw [unescape_write_byte f b (h b (List.mem_cons_self _ _)),
      ih r fun x hx => h x (List.mem_cons_of_mem _ hx)]
    rfl

lemma unescape_write_char (f : Formatter) (c : Nat) (hc : c ≤ 0x10FFFF) (r : List Nat) :
    unescape f.hex_as_decimal (write_char f c ++ r) =
      utf8EncodeCp c ++ unescape f.hex_as_decimal r := by
  unfold write_char
  cases hb : f.as_bytes
  · simp only [Bool.false_eq_true, if_false]
    cases hd : f.hex_as_decimal
    · simp only [Bool.false_eq_true, if_false, List.append_assoc, List.cons_append,
        List.nil_append]
      rw [unescape_u false (natToHex c) r ?hdig]
      case hdig =>
        intro d hdm
        rcases natToHex_digit_range c d hdm with h | h <;> omega
      rw [parse_natToHex]
    · simp only [if_true, List.append_assoc, List.cons_append, List.nil_append]
      rw [unescape_u true (natToDec c) r ?hdig2]
      case hdig2 =>
        intro d hdm
        have := natToDec_digit_range c d hdm
        omega
      rw [parse_natToDec]
  · simp only [if_true]
    exact unescape_escBytes f (utf8EncodeCp c) r (utf8EncodeCp_bytes_lt c hc)

/-- Decoding the canonical encoding of a scalar value consumes exactly that
encoding and yields the scalar back (the round-trip check passes). -/
lemma charIndices_encode_cons (c : Nat) (rest : List Nat) (hc : UnicodeScalar c) :
    charIndices (utf8EncodeCp c ++ rest) = (utf8EncodeCp c, c) :: charIndices rest := by
  have hsc : c < 0xD800 ∨ (0xE000 ≤ c ∧ c ≤ 0x10FFFF) := hc
  by_cases h1 : c < 0x80
  · rw [utf8EncodeCp_one h1]
    simp only [List.cons_append, List.nil_append]
    rw [charIndices_cons]
    have hd : decodeOne c rest = (([c], c), rest) := by
      simp only [decodeOne, if_pos h1]
    rw [hd]
  · by_cases h2 : c < 0x800
    · rw [utf8EncodeCp_two (by omega) h2]
      simp only [List.cons_append, List.nil_append]
      rw [charIndices_cons]
      have hd : decodeOne (0xC0 + c / 64) ((0x80 + c % 64) :: rest) =
          (([0xC0 + c / 64, 0x80 + c % 64], c), rest) := by
        simp only [decodeOne, if_neg (show ¬0xC0 + c / 64 < 0x80 by omega),
          if_neg (show ¬0xC0 + c / 64 < 0xC2 by omega),
          if_pos (show 0xC0 + c / 64 < 0xE0 by omega),
          if_pos ((isCont_iff (b := 0x80 + c % 64)).mpr (by omega))]
        simp only [Prod.mk.injEq]
        refine ⟨⟨by trivial, by omega⟩, by trivial⟩
      rw [hd]
    · by_cases h3 : c < 0x10000
      · rw [utf8EncodeCp_three (by omega) h3]
        simp only [List.cons_append, List.nil_append]
        rw [charIndices_cons]
        have hcond : (if 0xE0 + c / 4096 = 0xE0 then 0xA0 else 0x80) ≤ 0x80 + c / 64 % 64 ∧
            0x80 + c / 64 % 64 ≤ (if 0xE0 + c / 4096 = 0xED then 0x9F else 0xBF) := by
          constructor
          · by_cases he : 0xE0 + c / 4096 = 0xE0
            · rw [if_pos he]
              omega
            · rw [if_neg he]
              omega
          · by_cases he : 0xE0 + c / 4096 = 0xED
            · rw [if_pos he]
              omega
            · rw [if_neg he]
              omega
        have hd : decodeOne (0xE0 + c / 4096) ((0x80 + c / 64 % 64) :: (0x80 + c % 64) :: rest) =
            (([0xE0 + c / 4096, 0x80 + c / 64 % 64, 0x80 + c % 64], c), rest) := by
          simp only [decodeOne, if_neg (show ¬0xE0 + c / 4096 < 0x80 by omega),
            if_neg (show ¬0xE0 + c / 4096 < 0xC2 by omega),
            if_neg (show ¬0xE0 + c / 4096 < 0xE0 by omega),
            if_pos (show 0xE0 + c / 4096 < 0xF0 by omega),
            if_pos hcond, if_pos ((isCont_iff (b := 0x80 + c % 64)).mpr (by omega))]
          simp only [Prod.mk.injEq]
          refine ⟨⟨by trivial, by omega⟩, by trivial⟩
        rw [hd]
      · have h4 : c ≤ 0x10FFFF := by omega
        rw [utf8EncodeCp_four (by omega)]
        simp only [List.cons_append, List.nil_append]
        rw [charIndices_cons]
        have hcond : (if 0xF0 + c / 262144 = 0xF0 then 0x90 else 0x80) ≤ 0x80 + c / 4096 % 64 ∧
            0x80 + c / 4096 % 64 ≤ (if 0xF0 + c / 262144 = 0xF4 then 0x8F else 0xBF) := by
          constructor
          · by_cases he : 0xF0 + c / 262144 = 0xF0
            · rw [if_pos he]
              omega
            · rw [if_neg he]
              omega
          · by_cases he : 0xF0 + c / 262144 = 0xF4
            · rw [if_pos he]
              omega
            · rw [if_neg he]
              omega
        have hd : decodeOne (0xF0 + c / 262144)
            ((0x80 + c / 4096 % 64) :: (0x80 + c / 64 % 64) :: (0x80 + c % 64) :: rest) =
            (([0xF0 + c / 262144, 0x80 + c / 4096 % 64, 0x80 + c / 64 % 64, 0x80 + c % 64], c),
              rest) := by
          simp only [decodeOne, if_neg (show ¬0xF0 + c / 262144 < 0x80 by omega),
            if_neg (show ¬0xF0 + c / 262144 < 0xC2 by omega),
            if_neg (show ¬0xF0 + c / 262144 < 0xE0 by omega),
            if_neg (show ¬0xF0 + c / 262144 < 0xF0 by omega),
            if_pos (show 0xF0 + c / 262144 < 0xF5 by omega),
            if_pos hcond, if_pos ((isCont_iff (b := 0x80 + c / 64 % 64)).mpr (by omega)),
            if_pos ((isCont_iff (b := 0x80 + c % 64)).mpr (by omega))]
          simp only [Prod.mk.injEq]
          refine ⟨⟨by trivial, by omega⟩, by trivial⟩
        rw [hd]

/-- One valid classified unit un-escapes back to its UTF-8 span, for every
configuration without the lossy space-circle collapse and every character
other than the backslash. -/
lemma unescape_processUnit (f : Formatter) (fonts : List FontCow) (c : Nat) (r : List Nat)
    (hcirc : f.space_as_circle = false) (hc92 : c ≠ 92) (hc : UnicodeScalar c) :
    unescape f.hex_as_decimal (processUnit f fonts (utf8EncodeCp c) c ++ r) =
      utf8EncodeCp c ++ unescape f.hex_as_decimal r := by
  have hmax : c ≤ 0x10FFFF := by
    rcases hc with h | h <;> omega
  unfold processUnit
  rw [if_neg (by simp)]
  by_cases hall : f.all_as_hex = true
  · rw [if_pos hall]
    exact unescape_write_char f c hmax r
  · rw [if_neg hall]
    by_cases h10 : c = 10
    · subst h10
      cases hne : f.newline_escaped
      · rw [if_neg (by simp [hne])]
        cases hnh : f.newline_as_hex
        · rw [if_pos (by simp [hnh])]
          rw [show ([10] : List Nat) ++ r = 10 :: r from rfl, unescape_raw _ 10 r (by norm_num)]
        · rw [if_neg (by simp [hnh]), if_neg (by simp), if_neg (by simp),
            if_neg (by simp [hcirc]), if_pos (by simp [isAsciiControl])]
          exact unescape_write_char f 10 (by norm_num) r
      · rw [if_pos (by simp [hne])]
        simp only [List.cons_append, List.nil_append]
        rw [unescape_n]
        rw [utf8EncodeCp_one (by norm_num)]
        rfl
    · rw [if_neg (by simp [h10]), if_neg (by simp [h10])]
      by_cases h13 : c = 13
      · subst h13
        cases hcr : f.carriage_return_as_hex
        · rw [if_pos (by simp [hcr])]
          simp only [List.cons_append, List.nil_append]
          rw [unescape_r]
          rw [utf8EncodeCp_one (by norm_num)]
          rfl
        · rw [if_neg (by simp [hcr]), if_neg (by simp), if_neg (by simp [hcirc]),
            if_pos (by simp [isAsciiControl])]
          exact unescape_write_char f 13 (by norm_num) r
      · rw [if_neg (by simp [h13])]
        by_cases h9 : c = 9
        · subst h9
          cases htab : f.tab_as_hex
          · rw [if_pos (by simp [htab])]
            simp only [List.cons_append, List.nil_append]
            rw [unescape_t]
            rw [utf8EncodeCp_one (by norm_num)]
            rfl
          · rw [if_neg (by simp [htab]), if_neg (by simp [hcirc]),
              if_pos (by simp [isAsciiControl])]
            exact unescape_write_char f 9 (by norm_num) r
        · rw [if_neg (by simp [h9]), if_neg (by simp [hcirc])]
          cases h8 : (isAsciiControl c || (c != 32 && rustIsWhitespace c) ||
              (c == 32 && f.space_as_hex) || (!isAscii c && !is_char_in_fonts fonts c))
          · rw [if_neg (by simp)]
            simp only [List.cons_append, List.nil_append]
            rw [unescape_raw _ c r hc92]
          · rw [if_pos rfl]
            exact unescape_write_char f c hmax r

/-- C1, counterexample: even for the default configuration there is no
un-escaping function that recovers every valid UTF-8 input, because
escaping is not injective: the carriage return and the two-character text
`\r` produce the same output. -/
theorem C1_roundtrip_counterexample :
    ¬∃ unesc : List Nat → List Nat,
      ∀ cps : List Nat, (∀ c ∈ cps, UnicodeScalar c) →
        unesc (process_str noFlags [] (encodeAll cps)) = encodeAll cps := by
  rintro ⟨u, hu⟩
  have h1 := hu [13] (by decide)
  have h2 := hu [92, 114] (by decide)
  have e1 : process_str noFlags [] (encodeAll [13]) = [92, 114] := by decide
  have e2 : process_str noFlags [] (encodeAll [92, 114]) = [92, 114] := by decide
  rw [e1] at h1
  rw [e2] at h2
  exact absurd (h1.symm.trans h2) (by decide)

/-- C1, amended: for every configuration in which the lossy space-circle
collapse is off, and every valid UTF-8 input that contains no backslash
character, un-escaping the concatenated output according to the same
configuration's encoding rules recovers the original input exactly. -/
theorem C1_roundtrip_amended (f : Formatter) (fonts : List FontCow) (cps : List Nat)
    (hcirc : f.space_as_circle = false) (hs : ∀ c ∈ cps, UnicodeScalar c) (h92 : 92 ∉ cps) :
    unescape f.hex_as_decimal (process_str f fonts (encodeAll cps)) = encodeAll cps := by
  revert hs h92
  induction cps with
  | nil =>
    intro _ _
    rw [show encodeAll [] = [] from rfl, process_str_nil, unescape_nil]
  | cons c cps ih =>
    intro hs h92
    have hc := hs c (List.mem_cons_self _ _)
    have h92c : c ≠ 92 := fun h => h92 (h ▸ List.mem_cons_self _ _)
    have hstep : process_str f fonts (encodeAll (c :: cps)) =
        processUnit f fonts (utf8EncodeCp c) c ++ process_str f fonts (encodeAll cps) := by
      unfold process_str
      rw [show encodeAll (c :: cps) = utf8EncodeCp c ++ encodeAll cps from rfl,
        charIndices_encode_cons c _ hc]
      rfl
    rw [hstep, unescape_processUnit f fonts c _ hcirc h92c hc,
      ih (fun x hx => hs x (List.mem_cons_of_mem _ hx)) fun hx => h92 (List.mem_cons_of_mem _ hx)]
    rfl

/-- Witness for the amended C1 at a concrete configuration and input. -/
theorem C1_roundtrip_amended_witness :
    unescape noFlags.hex_as_decimal
        (process_str noFlags [] (encodeAll [72, 10, 0x1F600])) = encodeAll [72, 10, 0x1F600] :=
  C1_roundtrip_amended noFlags [] [72, 10, 0x1F600] rfl (by decide) (by decide)

end Hexv
